import Mathlib

/-! A shallow embedding of the make-me-rich repository: the Kedro pipeline
registry and node graphs (`pipeline_registry.py`, the `training_model` and
`converting_to_onnx` pipelines), the `LSTMDataLoader` Lightning data module
(`training_model/dataloader.py`), and the Minio-backed serving `ModelLoader`
(`serving/model_loader.py`), together with theorems checking the
specification claims against these definitions. -/

namespace MakeMeRich

/-- Python `str.split(sep)` for a one-character separator, acting on the
character list of the string.  Matches CPython semantics for a non-empty
separator: splitting the empty string gives `[""]`, and every occurrence of
the separator starts a new chunk. -/
def pySplit (sep : Char) : List Char → List (List Char)
  | [] => [[]]
  | c :: cs =>
    match pySplit sep cs with
    | [] => [[]]
    | g :: gs => if c = sep then [] :: g :: gs else (c :: g) :: gs

/-- Rejoin the chunks of a split with the separator. -/
def joinSep (sep : Char) : List (List Char) → List Char
  | [] => []
  | [g] => g
  | g :: gs => g ++ sep :: joinSep sep gs

/-- A Kedro pipeline node as built by `node(func=..., inputs=..., outputs=...,
name=...)`: the referenced function, the dataset names it consumes, the
dataset names it produces (`outputs=None` becomes the empty list, a single
string becomes a one-element list), and the node name. -/
structure Node where
  func : String
  inputs : List String
  outputs : List String
  name : String
deriving DecidableEq

/-- A Kedro `Pipeline` is its list of nodes; `+` on pipelines concatenates
the node lists. -/
abbrev Pipeline := List Node

/-- training_model/pipeline.py: the single node of the training pipeline.
It declares `outputs=None`. -/
def training_model_node : Node :=
  ⟨"training_loop",
   ["train_sequences", "val_sequences", "test_sequences", "params:training"],
   [],
   "training_model_node"⟩

/-- training_model/pipeline.py: `create_pipeline` returns the one-node
training pipeline. -/
def training_model_pipeline : Pipeline := [training_model_node]

/-- converting_to_onnx/pipeline.py: the conversion node. -/
def converting_model_node : Node :=
  ⟨"convert_model",
   ["train_sequences", "val_sequences", "test_sequences", "params:training",
    "params:dir_path", "training_done"],
   ["conversion_done", "input_sample"],
   "converting_model_node"⟩

/-- converting_to_onnx/pipeline.py: the validation node. -/
def validating_model_node : Node :=
  ⟨"validate_model",
   ["params:dir_path", "conversion_done", "input_sample"],
   ["validation_done"],
   "validating_model_node"⟩

/-- converting_to_onnx/pipeline.py: `create_pipeline` returns the two-node
conversion pipeline. -/
def converting_to_onnx_pipeline : Pipeline :=
  [converting_model_node, validating_model_node]

/-- pipeline_registry.py: `register_pipelines`.  The `fetching_data` and
`preprocessing_data` modules are not part of the excerpt, so the registry is
parametrised by the pipelines their `create_pipeline()` calls return; the
dictionary literal is embedded as an association list in source order. -/
def register_pipelines (fetching_data_pipeline preprocessing_data_pipeline : Pipeline) :
    List (String × Pipeline) :=
  [("__default__",
    fetching_data_pipeline ++ preprocessing_data_pipeline ++
      training_model_pipeline ++ converting_to_onnx_pipeline),
   ("fetching_data", fetching_data_pipeline),
   ("preprocessing_data", preprocessing_data_pipeline),
   ("training_model", training_model_pipeline),
   ("converting_to_onnx", converting_to_onnx_pipeline)]

/-- Node `a` produces a dataset that node `b` consumes. -/
def producesFor (a b : Node) : Prop := ∃ d ∈ a.outputs, d ∈ b.inputs

instance (a b : Node) : Decidable (producesFor a b) := by
  unfold producesFor; infer_instance

/-- A linear execution order respects the dataset dependencies when every
producer of a dataset runs before each consumer of that dataset. -/
def respectsDeps (run : List Node) : Prop :=
  ∀ i j : Fin run.length, producesFor (run.get i) (run.get j) → (i : ℕ) < (j : ℕ)

instance (run : List Node) : Decidable (respectsDeps run) := by
  unfold respectsDeps; infer_instance

/-- Modelled from the spec: `CryptoDataset` (crypto_dataset.py, not part of
the excerpt) is the dataset the data module wraps around a stored sequence
list; the embedding records the sequence list the constructor receives.  The
sequence element type is a parameter, standing for the
`Tuple[pd.DataFrame, float]` items of the source. -/
structure CryptoDataset (α : Type) where
  sequences : List α
deriving DecidableEq

/-- A `torch.utils.data.DataLoader` as configured by the data module: the
wrapped dataset and the `batch_size`, `shuffle` and `num_workers` arguments
it was given. -/
structure DataLoader (α : Type) where
  dataset : CryptoDataset α
  batch_size : Nat
  shuffle : Bool
  num_workers : Nat
deriving DecidableEq

/-- training_model/dataloader.py: the attribute state of an `LSTMDataLoader`
instance.  The three dataset attributes are only assigned by `setup`, hence
`Option`; reading them before `setup` is Python `AttributeError`. -/
structure LSTMDataLoader (α : Type) where
  train_sequences : List α
  val_sequences : List α
  test_sequences : List α
  train_batch_size : Nat
  val_batch_size : Nat
  train_workers : Nat
  val_workers : Nat
  test_workers : Nat
  train_dataset : Option (CryptoDataset α)
  val_dataset : Option (CryptoDataset α)
  test_dataset : Option (CryptoDataset α)
deriving DecidableEq

/-- training_model/dataloader.py: `LSTMDataLoader.__init__`.  Its parameters
are the three sequence lists, `train_batch_size`, `val_batch_size`,
`train_workers` (source default 2) and `val_workers` (source default 1); no
test batch size parameter exists.  It sets `test_workers = val_workers`. -/
def LSTMDataLoader.init {α : Type}
    (train_sequences val_sequences test_sequences : List α)
    (train_batch_size val_batch_size train_workers val_workers : Nat) :
    LSTMDataLoader α :=
  ⟨train_sequences, val_sequences, test_sequences,
   train_batch_size, val_batch_size,
   train_workers, val_workers, val_workers,
   none, none, none⟩

/-- training_model/dataloader.py: `setup` builds the three `CryptoDataset`s
from the stored sequence lists. -/
def LSTMDataLoader.setup {α : Type} (self : LSTMDataLoader α) : LSTMDataLoader α :=
  { self with
    train_dataset := some ⟨self.train_sequences⟩,
    val_dataset := some ⟨self.val_sequences⟩,
    test_dataset := some ⟨self.test_sequences⟩ }

/-- training_model/dataloader.py: `train_dataloader`. -/
def LSTMDataLoader.train_dataloader {α : Type} (self : LSTMDataLoader α) :
    Except String (DataLoader α) :=
  match self.train_dataset with
  | some d => .ok ⟨d, self.train_batch_size, false, self.train_workers⟩
  | none => .error "AttributeError"

/-- training_model/dataloader.py: `val_dataloader`. -/
def LSTMDataLoader.val_dataloader {α : Type} (self : LSTMDataLoader α) :
    Except String (DataLoader α) :=
  match self.val_dataset with
  | some d => .ok ⟨d, self.val_batch_size, false, self.val_workers⟩
  | none => .error "AttributeError"

/-- training_model/dataloader.py: `test_dataloader`.  It reads
`self.val_batch_size` and `self.test_workers`. -/
def LSTMDataLoader.test_dataloader {α : Type} (self : LSTMDataLoader α) :
    Except String (DataLoader α) :=
  match self.test_dataset with
  | some d => .ok ⟨d, self.val_batch_size, false, self.test_workers⟩
  | none => .error "AttributeError"

/-- serving/model.py is not part of the excerpt: `OnnxModel` wraps the
downloaded model and scaler files; the embedding records the two paths the
`ModelLoader` constructs it from. -/
structure OnnxModel where
  model_path : String
  scaler_path : String
deriving DecidableEq

/-- The result of running a model on a sample. -/
structure OnnxPrediction where
  model_path : String
  scaler_path : String
  sample : List Int
deriving DecidableEq

/-- Modelled from the spec: `OnnxModel.predict` (serving/model.py, not part
of the excerpt) runs the onnxruntime inference session of the wrapped model
on the sample; its numeric behaviour is external, so it is embedded as an
uninterpreted function of the model files and the sample. -/
def OnnxModel.predict (self : OnnxModel) (sample : List Int) : OnnxPrediction :=
  ⟨self.model_path, self.scaler_path, sample⟩

/-- The observable state of the Minio object store: the existing buckets and
the stored objects as (bucket, object name) pairs. -/
structure MinioState where
  buckets : List String
  objects : List (String × String)
deriving DecidableEq

/-- Minio `bucket_exists`. -/
def bucket_exists (m : MinioState) (b : String) : Bool := m.buckets.contains b

/-- Minio `make_bucket`. -/
def make_bucket (m : MinioState) (b : String) : MinioState :=
  ⟨b :: m.buckets, m.objects⟩

/-- Minio `list_objects(bucket, prefix=pre, recursive=True)`: the names of
the objects of the bucket whose name starts with the given text. -/
def list_objects (m : MinioState) (bucket pre : String) : List String :=
  (m.objects.filter (fun o => o.1 == bucket && pre.data.isPrefixOf o.2.data)).map
    (fun o => o.2)

/-- Minio `fget_object`: downloading an object that is not in the store
raises an `S3Error`. -/
def fget_object (m : MinioState) (bucket obj : String) : Except String Unit :=
  if (bucket, obj) ∈ m.objects then .ok () else .error "S3Error"

/-- An entry of `session_models`: the Python value is the one-key dictionary
`\x7b"model": model\x7d`. -/
structure SessionEntry where
  model : OnnxModel
deriving DecidableEq

/-- The attribute state of a `ModelLoader` instance.  `fetched` records the
object names passed to `fget_object`, i.e. the download trace against the
object store. -/
structure ModelLoader where
  bucket : String
  date : String
  session_models : List (String × SessionEntry)
  storage_path : String
  fetched : List String
deriving DecidableEq

/-- Python dictionary assignment `d[k] = v` on an association list kept in
insertion order: an existing key is overwritten in place, a new key is
appended. -/
def dictSet {β : Type} (l : List (String × β)) (k : String) (v : β) :
    List (String × β) :=
  if l.any (fun p => p.1 == k) then
    l.map (fun p => if p.1 == k then (k, v) else p)
  else l ++ [(k, v)]

/-- serving/model_loader.py: `update_date` sets `self.date` to the current
date formatted `%Y-%m-%d`; the formatted clock reading is the `today`
argument of the embedding. -/
def update_date (today : String) (self : ModelLoader) : ModelLoader :=
  { self with date := today }

/-- serving/model_loader.py: `_get_models_files_path` joins the storage path
with the `currency_compare` directory and the two file names. -/
def _get_models_files_path (self : ModelLoader) (currency compare : String) :
    String × String :=
  (self.storage_path ++ "/" ++ currency ++ "_" ++ compare ++ "/model.onnx",
   self.storage_path ++ "/" ++ currency ++ "_" ++ compare ++ "/scaler.pkl")

/-- serving/model_loader.py: `_download_files` fetches the model and scaler
objects stored under the loader date for the given currency pair.  The local
`_makedir` call touches only the file system and has no embedded effect. -/
def _download_files (m : MinioState) (currency compare : String)
    (self : ModelLoader) : Except String ModelLoader :=
  let obj1 := self.date ++ "/" ++ currency ++ "_" ++ compare ++ "/model.onnx"
  let obj2 := self.date ++ "/" ++ currency ++ "_" ++ compare ++ "/scaler.pkl"
  match fget_object m self.bucket obj1 with
  | .error e => .error e
  | .ok _ =>
    match fget_object m self.bucket obj2 with
    | .error e => .error e
    | .ok _ => .ok { self with fetched := self.fetched ++ [obj1, obj2] }

/-- serving/model_loader.py: `_add_model_to_session_models` builds an
`OnnxModel` from the two local paths and stores it under the key
`currency_compare`. -/
def _add_model_to_session_models (currency compare : String)
    (self : ModelLoader) : ModelLoader :=
  let paths := _get_models_files_path self currency compare
  { self with
    session_models :=
      dictSet self.session_models (currency ++ "_" ++ compare) ⟨⟨paths.1, paths.2⟩⟩ }

/-- The comprehension `[model.object_name.split("/")[1] for model in ...]`:
Python raises `IndexError` when a name has no second path component. -/
def secondComponents : List String → Except String (List String)
  | [] => .ok []
  | o :: os =>
    match (pySplit '/' o.data).get? 1 with
    | none => .error "IndexError"
    | some n =>
      match secondComponents os with
      | .error e => .error e
      | .ok ns => .ok (String.mk n :: ns)

/-- serving/model_loader.py: `_get_list_of_available_models` lists the
objects of the bucket under the date prefix and collects the distinct second
path components.  `list(set(...))` returns the distinct names in an
unspecified order; the embedding keeps the first occurrences. -/
def _get_list_of_available_models (m : MinioState) (bucket date : String) :
    Except String (List String) :=
  match secondComponents (list_objects m bucket date) with
  | .error e => .error e
  | .ok names => .ok names.dedup

/-- The destructuring assignment `currency, compare = model.split("_")` of
`update_model_files`: it succeeds exactly when the split yields two parts
and otherwise Python raises a `ValueError`. -/
def unpack2 (model : String) : Except String (String × String) :=
  match pySplit '_' model.data with
  | [currency, compare] => .ok (String.mk currency, String.mk compare)
  | _ => .error "ValueError"

/-- The loop body of `update_model_files` over the available model names:
destructure the name, download the files, add the model to the session. -/
def processModels (m : MinioState) : List String → ModelLoader →
    Except String ModelLoader
  | [], self => .ok self
  | model :: rest, self =>
    match unpack2 model with
    | .error e => .error e
    | .ok (currency, compare) =>
      match _download_files m currency compare self with
      | .error e => .error e
      | .ok st1 => processModels m rest (_add_model_to_session_models currency compare st1)

/-- serving/model_loader.py: `update_model_files`. -/
def update_model_files (m : MinioState) (self : ModelLoader) :
    Except String ModelLoader :=
  match _get_list_of_available_models m self.bucket self.date with
  | .error e => .error e
  | .ok models => processModels m models self

/-- serving/model_loader.py: `ModelLoader.__init__`.  The client credentials
only address the external endpoint; `env_bucket` is `MINIO_BUCKET` and
`today` is `datetime.now()` formatted `%Y-%m-%d`.  The constructor creates
the bucket when it does not exist, starts with an empty session, sets the
storage path, sets the date via `update_date`, and fills the session via
`update_model_files`. -/
def ModelLoader.init (env_bucket today : String) (m : MinioState) :
    Except String (MinioState × ModelLoader) :=
  let m1 := if bucket_exists m env_bucket then m else make_bucket m env_bucket
  match update_model_files m1 (update_date today ⟨env_bucket, "", [], "./models", []⟩) with
  | .error e => .error e
  | .ok st => .ok (m1, st)

/-- serving/model_loader.py: `_check_model_exists_in_session`. -/
def _check_model_exists_in_session (self : ModelLoader) (model_name : String) : Bool :=
  self.session_models.any (fun p => p.1 == model_name)

/-- serving/model_loader.py: `get_predictions`.  The method reads the session
and returns a value; the returned loader state records that `self` is not
mutated. -/
def get_predictions (self : ModelLoader) (model_name : String) (sample : List Int) :
    Except String OnnxPrediction × ModelLoader :=
  if _check_model_exists_in_session self model_name then
    match self.session_models.lookup model_name with
    | some entry => (.ok (entry.model.predict sample), self)
    | none => (.error "KeyError", self)
  else
    (.error "Model not found in session.", self)

/-- The session entry `update_model_files` produces for a model key: an
`OnnxModel` over the two local file paths under the storage directory. -/
def sessionEntryFor (sp k : String) : SessionEntry :=
  ⟨⟨sp ++ "/" ++ k ++ "/model.onnx", sp ++ "/" ++ k ++ "/scaler.pkl"⟩⟩

/-- A demonstration object store: one bucket holding one model stored under
the `2021-12-01` date prefix. -/
def demoMinio : MinioState :=
  ⟨["models"],
   [("models", "2021-12-01/btc_usdt/model.onnx"),
    ("models", "2021-12-01/btc_usdt/scaler.pkl")]⟩

/-- A fresh loader state over the demonstration store, as `__init__` builds
it before `update_model_files` runs. -/
def demoLoader0 : ModelLoader := ⟨"models", "2021-12-01", [], "./models", []⟩

/-- The loader state after construction over the demonstration store. -/
def demoLoaded : ModelLoader :=
  ⟨"models", "2021-12-01",
   [("btc_usdt", ⟨⟨"./models/btc_usdt/model.onnx", "./models/btc_usdt/scaler.pkl"⟩⟩)],
   "./models",
   ["2021-12-01/btc_usdt/model.onnx", "2021-12-01/btc_usdt/scaler.pkl"]⟩

theorem pySplit_ne_nil (sep : Char) (cs : List Char) : pySplit sep cs ≠ [] := by
  induction cs with
  | nil => simp [pySplit]
  | cons c cs ih =>
    rcases h : pySplit sep cs with _ | ⟨g, gs⟩
    · exact absurd h ih
    · by_cases hc : c = sep <;> simp [pySplit, h, hc]

/-- The number of chunks produced by a split is the separator count plus one. -/
theorem pySplit_length (sep : Char) (cs : List Char) :
    (pySplit sep cs).length = cs.count sep + 1 := by
  induction cs with
  | nil => simp [pySplit]
  | cons c cs ih =>
    rcases h : pySplit sep cs with _ | ⟨g, gs⟩
    · exact absurd h (pySplit_ne_nil sep cs)
    · rw [h] at ih
      simp only [List.length_cons] at ih
      by_cases hc : c = sep
      · subst hc
        simp [pySplit, h]
        omega
      · have hc2 : ¬ sep = c := fun hh => hc hh.symm
        simp [pySplit, h, hc, hc2, List.count_cons]
        omega

/-- Splitting a string that does not contain the separator yields one chunk. -/
theorem pySplit_no_sep (sep : Char) (cs : List Char) (h : sep ∉ cs) :
    pySplit sep cs = [cs] := by
  induction cs with
  | nil => rfl
  | cons c cs ih =>
    have hc : ¬ c = sep := by rintro rfl; exact h (List.mem_cons_self _ _)
    have ih2 := ih (fun hm => h (List.mem_cons_of_mem c hm))
    simp [pySplit, ih2, hc]

/-- Splitting around a single separator occurrence yields the text before and
the text after it. -/
theorem pySplit_pair (sep : Char) (b a : List Char) (hb : sep ∉ b) (ha : sep ∉ a) :
    pySplit sep (b ++ sep :: a) = [b, a] := by
  induction b with
  | nil => simp [pySplit, pySplit_no_sep sep a ha]
  | cons c cs ih =>
    have hc : ¬ c = sep := by rintro rfl; exact hb (List.mem_cons_self _ _)
    have ih2 := ih (fun hm => hb (List.mem_cons_of_mem c hm))
    simp [pySplit, ih2, hc]

/-- Rejoining the chunks of a split recovers the original string. -/
theorem joinSep_pySplit (sep : Char) (cs : List Char) :
    joinSep sep (pySplit sep cs) = cs := by
  induction cs with
  | nil => rfl
  | cons c cs ih =>
    rcases h : pySplit sep cs with _ | ⟨g, gs⟩
    · exact absurd h (pySplit_ne_nil sep cs)
    · rw [h] at ih
      by_cases hc : c = sep
      · subst hc
        rcases gs with _ | ⟨g2, gs⟩ <;> simp_all [pySplit, h, joinSep]
      · rcases gs with _ | ⟨g2, gs⟩ <;> simp_all [pySplit, h, joinSep]

/-- A split that produced exactly two chunks came from the string made of the
first chunk, the separator, and the second chunk. -/
theorem pySplit_two_eq (sep : Char) (cs g1 g2 : List Char)
    (h : pySplit sep cs = [g1, g2]) : cs = g1 ++ sep :: g2 := by
  have := joinSep_pySplit sep cs
  rw [h] at this
  simpa [joinSep] using this.symm

/-- A permutation of a two-element list of distinct elements is one of the
two arrangements. -/
theorem perm_pair_cases {α : Type} {x y : α} {l : List α} (hxy : x ≠ y)
    (h : l.Perm [x, y]) : l = [x, y] ∨ l = [y, x] := by
  have h1 : x ∈ l := h.mem_iff.mpr (by simp)
  have h2 : y ∈ l := h.mem_iff.mpr (by simp)
  have hl := h.length_eq
  rcases l with _ | ⟨a, _ | ⟨b, _ | ⟨c, t⟩⟩⟩
  · simp at hl
  · simp at hl
  · simp only [List.mem_cons, List.mem_singleton, List.not_mem_nil, or_false] at h1 h2
    rcases h1 with rfl | rfl
    · rcases h2 with rfl | rfl
      · exact absurd rfl hxy
      · exact Or.inl rfl
    · rcases h2 with rfl | rfl
      · exact Or.inr rfl
      · exact absurd rfl hxy
  · simp at hl

/-- C1: `register_pipelines` returns a mapping with exactly the five keys
`__default__`, `fetching_data`, `preprocessing_data`, `training_model` and
`converting_to_onnx`, and the `__default__` pipeline is the concatenation of
the fetching, preprocessing, training and converting pipelines in that
order. -/
theorem register_pipelines_keys_and_default
    (fdp pdp : Pipeline) :
    (register_pipelines fdp pdp).map Prod.fst =
      ["__default__", "fetching_data", "preprocessing_data",
       "training_model", "converting_to_onnx"] ∧
    (register_pipelines fdp pdp).lookup "__default__" =
      some (fdp ++ pdp ++ training_model_pipeline ++ converting_to_onnx_pipeline) := by
  exact ⟨rfl, rfl⟩

/-- C2 (evidence of the code bug): `converting_model_node` consumes a
`training_done` input, but `training_model_node` declares `outputs=None`, so
the training stage produces no dataset at all; consequently the order that
runs conversion, then validation, then training respects every dataset
dependency of `training_model_pipeline + converting_to_onnx_pipeline` while
executing the conversion node before the training node. -/
theorem training_done_not_produced_by_training :
    "training_done" ∈ converting_model_node.inputs ∧
    training_model_node.outputs = [] ∧
    List.Perm [converting_model_node, validating_model_node, training_model_node]
      (training_model_pipeline ++ converting_to_onnx_pipeline) ∧
    respectsDeps [converting_model_node, validating_model_node, training_model_node] ∧
    List.indexOf converting_model_node
        [converting_model_node, validating_model_node, training_model_node] <
      List.indexOf training_model_node
        [converting_model_node, validating_model_node, training_model_node] := by
  refine ⟨by decide, rfl, by decide, by decide, by decide⟩

/-- C5: in every dataset-dependency-respecting execution order of the
converting_to_onnx pipeline, the conversion node runs before the validation
node: `validating_model_node` consumes the `conversion_done` and
`input_sample` outputs of `converting_model_node`. -/
theorem conversion_precedes_validation (run : List Node)
    (hperm : run.Perm converting_to_onnx_pipeline) (hdeps : respectsDeps run) :
    List.indexOf converting_model_node run < List.indexOf validating_model_node run := by
  have hne : converting_model_node ≠ validating_model_node := by decide
  rcases perm_pair_cases hne hperm with hrun | hrun
  · subst hrun; decide
  · subst hrun
    exfalso
    have hcv : producesFor converting_model_node validating_model_node := by decide
    have := hdeps ⟨1, by decide⟩ ⟨0, by decide⟩ hcv
    simp at this

/-- Witness for C5: the source order of the converting_to_onnx pipeline is a
dependency-respecting run, and on it the conversion node has the smaller
index. -/
theorem conversion_precedes_validation_witness :
    List.Perm converting_to_onnx_pipeline converting_to_onnx_pipeline ∧
    respectsDeps converting_to_onnx_pipeline ∧
    List.indexOf converting_model_node converting_to_onnx_pipeline <
      List.indexOf validating_model_node converting_to_onnx_pipeline :=
  ⟨List.Perm.refl _, by decide,
   conversion_precedes_validation converting_to_onnx_pipeline (List.Perm.refl _) (by decide)⟩

/-- C6: `LSTMDataLoader` is a pure wrapper over the stored sequences: after
`setup`, each dataset is a `CryptoDataset` built from the corresponding
sequence list unchanged, and `train_dataloader` and `val_dataloader` return
`DataLoader`s over the corresponding dataset with the configured batch size,
the configured worker count, and shuffling disabled, so element order is
preserved. -/
theorem lstm_dataloader_pure_wrapper {α : Type}
    (tseqs vseqs sseqs : List α) (tb vb tw vw : Nat) :
    ((LSTMDataLoader.init tseqs vseqs sseqs tb vb tw vw).setup.train_dataset =
        some ⟨tseqs⟩ ∧
      (LSTMDataLoader.init tseqs vseqs sseqs tb vb tw vw).setup.val_dataset =
        some ⟨vseqs⟩ ∧
      (LSTMDataLoader.init tseqs vseqs sseqs tb vb tw vw).setup.test_dataset =
        some ⟨sseqs⟩) ∧
    (LSTMDataLoader.init tseqs vseqs sseqs tb vb tw vw).setup.train_dataloader =
      .ok ⟨⟨tseqs⟩, tb, false, tw⟩ ∧
    (LSTMDataLoader.init tseqs vseqs sseqs tb vb tw vw).setup.val_dataloader =
      .ok ⟨⟨vseqs⟩, vb, false, vw⟩ :=
  ⟨⟨rfl, rfl, rfl⟩, rfl, rfl⟩

/-- C7: the test dataloader reuses the validation configuration: for every
construction of the data module, `test_dataloader` returns a `DataLoader`
whose batch size is `val_batch_size` and whose worker count is `val_workers`
(via `test_workers`, set to `val_workers` by the constructor, which exposes
no test-specific batch size or worker parameter). -/
theorem test_dataloader_reuses_val_config {α : Type}
    (tseqs vseqs sseqs : List α) (tb vb tw vw : Nat) :
    (LSTMDataLoader.init tseqs vseqs sseqs tb vb tw vw).setup.test_dataloader =
      .ok ⟨⟨sseqs⟩, vb, false, vw⟩ ∧
    (LSTMDataLoader.init tseqs vseqs sseqs tb vb tw vw).test_workers = vw :=
  ⟨rfl, rfl⟩

theorem string_data_append (s t : String) : (s ++ t).data = s.data ++ t.data := by
  rcases s with ⟨sd⟩; rcases t with ⟨td⟩; rfl

theorem string_append_assoc (a b c : String) : a ++ b ++ c = a ++ (b ++ c) := by
  rcases a with ⟨ad⟩; rcases b with ⟨bd⟩; rcases c with ⟨cd⟩
  exact congrArg String.mk (List.append_assoc ad bd cd)

theorem string_eq_of_data {s t : String} (h : s.data = t.data) : s = t := by
  rcases s with ⟨sd⟩; rcases t with ⟨td⟩; exact congrArg String.mk h

theorem lookup_nil {β : Type} (k : String) :
    ([] : List (String × β)).lookup k = none := rfl

theorem lookup_cons_self {β : Type} (k : String) (v : β) (l : List (String × β)) :
    ((k, v) :: l).lookup k = some v := by
  have hb : (k == k) = true := by simp
  simp [List.lookup, hb]

theorem lookup_cons_ne {β : Type} {k k1 : String} (v : β) (l : List (String × β))
    (h : ¬ k = k1) : ((k1, v) :: l).lookup k = l.lookup k := by
  have hb : (k == k1) = false := by simp [h]
  simp [List.lookup, hb]

/-- The membership check of `_check_model_exists_in_session` agrees with
association-list lookup. -/
theorem any_key_eq_lookup_isSome {β : Type} (l : List (String × β)) (k : String) :
    l.any (fun p => p.1 == k) = (l.lookup k).isSome := by
  induction l with
  | nil => rfl
  | cons p ps ih =>
    rcases p with ⟨k2, v⟩
    by_cases h : k = k2
    · subst h
      rw [lookup_cons_self]
      simp
    · have hne : ¬ k2 = k := fun hh => h hh.symm
      have h2 : (k2 == k) = false := by simp [hne]
      rw [lookup_cons_ne v ps h]
      simp [List.any_cons, h2, ih]

theorem lookup_map_set {β : Type} (l : List (String × β)) (k k2 : String) (v : β) :
    (l.map (fun p => if p.1 == k2 then (k2, v) else p)).lookup k =
      if k = k2 then (if (l.lookup k2).isSome then some v else none)
      else l.lookup k := by
  induction l with
  | nil => by_cases h : k = k2 <;> simp [lookup_nil, h]
  | cons p ps ih =>
    rcases p with ⟨k1, v1⟩
    simp only [List.map_cons]
    by_cases h1 : k1 = k2
    · subst h1
      simp only [beq_self_eq_true, if_true]
      rw [lookup_cons_self]
      by_cases h : k = k1
      · subst h
        rw [lookup_cons_self]
        simp
      · rw [lookup_cons_ne v _ h, lookup_cons_ne v1 ps h, ih]
        simp [h]
    · have hb : (k1 == k2) = false := by simp [h1]
      have hk21 : ¬ k2 = k1 := fun hh => h1 hh.symm
      simp only [hb, Bool.false_eq_true, if_false]
      rw [lookup_cons_ne v1 ps hk21]
      by_cases h : k = k1
      · subst h
        have hk2 : ¬ k = k2 := h1
        rw [lookup_cons_self, lookup_cons_self]
        simp [hk2]
      · rw [lookup_cons_ne v1 _ h, lookup_cons_ne v1 ps h, ih]

theorem lookup_append_single {β : Type} (l : List (String × β)) (k k2 : String)
    (v : β) (hnone : l.lookup k2 = none) :
    (l ++ [(k2, v)]).lookup k = if k = k2 then some v else l.lookup k := by
  induction l with
  | nil =>
    by_cases h : k = k2
    · subst h; simp [lookup_cons_self]
    · simp [lookup_cons_ne v _ h, lookup_nil, h]
  | cons p ps ih =>
    rcases p with ⟨k1, v1⟩
    have hk21 : ¬ k2 = k1 := by
      intro hh
      subst hh
      rw [lookup_cons_self] at hnone
      exact Option.noConfusion hnone
    have hnone2 : ps.lookup k2 = none := by
      rw [lookup_cons_ne v1 ps hk21] at hnone
      exact hnone
    rw [List.cons_append]
    by_cases h : k = k1
    · subst h
      have hk2 : ¬ k = k2 := fun hh => hk21 hh.symm
      rw [lookup_cons_self, lookup_cons_self]
      simp [hk2]
    · rw [lookup_cons_ne v1 (ps ++ [(k2, v)]) h, lookup_cons_ne v1 ps h, ih hnone2]

/-- Python dictionary assignment in terms of lookup: the assigned key maps to
the new value and every other key is unchanged. -/
theorem dictSet_lookup {β : Type} (l : List (String × β)) (k k2 : String) (v : β) :
    (dictSet l k2 v).lookup k = if k = k2 then some v else l.lookup k := by
  unfold dictSet
  rcases hs : (l.lookup k2).isSome with _ | _
  · have hany : l.any (fun p => p.1 == k2) = false := by
      rw [any_key_eq_lookup_isSome, hs]
    have hnone : l.lookup k2 = none := by
      rcases hl : l.lookup k2 with _ | w
      · rfl
      · rw [hl] at hs; simp at hs
    rw [hany]
    simpa using lookup_append_single l k k2 v hnone
  · have hany : l.any (fun p => p.1 == k2) = true := by
      rw [any_key_eq_lookup_isSome, hs]
    rw [hany]
    simp only [if_true]
    rw [lookup_map_set l k k2 v, hs]
    simp
/-- A model name with a separator count other than one makes the
destructuring assignment raise `ValueError`. -/
theorem unpack2_error_of_count_ne_one (name : String)
    (h : name.data.count '_' ≠ 1) : unpack2 name = .error "ValueError" := by
  have hlen := pySplit_length '_' name.data
  unfold unpack2
  rcases hsp : pySplit '_' name.data with _ | ⟨g1, _ | ⟨g2, _ | ⟨g3, t⟩⟩⟩
  · rfl
  · rfl
  · rw [hsp] at hlen; simp at hlen; omega
  · rfl

/-- A successful destructuring `currency, compare = model.split("_")`
reassembles to the model name, which has exactly one underscore. -/
theorem unpack2_ok_key (name c p : String) (h : unpack2 name = .ok (c, p)) :
    c ++ "_" ++ p = name ∧ name.data.count '_' = 1 := by
  unfold unpack2 at h
  rcases hsp : pySplit '_' name.data with _ | ⟨g1, _ | ⟨g2, _ | ⟨g3, t⟩⟩⟩ <;>
    rw [hsp] at h
  · exact Except.noConfusion h
  · exact Except.noConfusion h
  · have h' : Except.ok ((⟨g1⟩ : String), (⟨g2⟩ : String)) = Except.ok (c, p) := h
    have h2 := Except.ok.inj h'
    injection h2 with hc hp
    subst hc; subst hp
    have hdata : name.data = g1 ++ '_' :: g2 := pySplit_two_eq '_' name.data g1 g2 hsp
    have hlen := pySplit_length '_' name.data
    rw [hsp] at hlen
    constructor
    · apply string_eq_of_data
      rw [string_data_append, string_data_append, hdata]
      simp
    · simp at hlen; omega
  · exact Except.noConfusion h

/-- A name with a single separator destructures into the text before and the
text after it. -/
theorem unpack2_ok_pair (b a : List Char) (hb : '_' ∉ b) (ha : '_' ∉ a) :
    unpack2 (String.mk (b ++ '_' :: a)) = .ok (String.mk b, String.mk a) := by
  unfold unpack2
  rw [show (String.mk (b ++ '_' :: a)).data = b ++ '_' :: a from rfl,
     pySplit_pair '_' b a hb ha]

/-- Restatement of `_add_model_to_session_models` with the local file paths
regrouped around the session key `currency_compare`. -/
theorem add_model_eq (c p : String) (st : ModelLoader) :
    _add_model_to_session_models c p st =
      { st with session_models :=
          (dictSet st.session_models (c ++ "_" ++ p)
            (sessionEntryFor st.storage_path (c ++ "_" ++ p))) } := by
  unfold _add_model_to_session_models _get_models_files_path sessionEntryFor
  simp only [string_append_assoc]

/-- Characterisation of a successful `_download_files` call: both objects,
named under the loader date, are in the store, and the only state change is
the recorded download trace. -/
theorem download_files_ok (m : MinioState) (c p : String) (st st' : ModelLoader)
    (h : _download_files m c p st = .ok st') :
    st' = { st with fetched :=
        (st.fetched ++
          [st.date ++ "/" ++ c ++ "_" ++ p ++ "/model.onnx",
           st.date ++ "/" ++ c ++ "_" ++ p ++ "/scaler.pkl"]) } ∧
      (st.bucket, st.date ++ "/" ++ c ++ "_" ++ p ++ "/model.onnx") ∈ m.objects ∧
      (st.bucket, st.date ++ "/" ++ c ++ "_" ++ p ++ "/scaler.pkl") ∈ m.objects := by
  unfold _download_files fget_object at h
  by_cases h1 : (st.bucket, st.date ++ "/" ++ c ++ "_" ++ p ++ "/model.onnx") ∈ m.objects
  · by_cases h2 : (st.bucket, st.date ++ "/" ++ c ++ "_" ++ p ++ "/scaler.pkl") ∈ m.objects
    · simp only [h1, h2, if_true] at h
      simp only [Except.ok.injEq] at h
      exact ⟨h.symm, h1, h2⟩
    · simp [h1, h2] at h
  · simp [h1] at h

theorem processModels_fields (m : MinioState) (names : List String) :
    ∀ st st', processModels m names st = .ok st' →
      st'.bucket = st.bucket ∧ st'.date = st.date ∧
      st'.storage_path = st.storage_path := by
  induction names with
  | nil =>
    intro st st' h
    simp only [processModels, Except.ok.injEq] at h
    rw [← h]
    exact ⟨rfl, rfl, rfl⟩
  | cons n rest ih =>
    intro st st' h
    unfold processModels at h
    split at h
    next e hu => exact Except.noConfusion h
    next c p hu =>
      split at h
      next e hd => exact Except.noConfusion h
      next st1 hd =>
        have hch := (download_files_ok m c p st st1 hd).1
        subst hch
        have hih := ih _ _ h
        simpa [add_model_eq] using hih

theorem processModels_persist (m : MinioState) (names : List String) :
    ∀ st st', processModels m names st = .ok st' →
      ∀ k, st.session_models.lookup k = some (sessionEntryFor st.storage_path k) →
        st'.session_models.lookup k = some (sessionEntryFor st.storage_path k) := by
  induction names with
  | nil =>
    intro st st' h k hk
    simp only [processModels, Except.ok.injEq] at h
    rw [← h]
    exact hk
  | cons n rest ih =>
    intro st st' h k hk
    unfold processModels at h
    split at h
    next e hu => exact Except.noConfusion h
    next c p hu =>
      split at h
      next e hd => exact Except.noConfusion h
      next st1 hd =>
        have hch := (download_files_ok m c p st st1 hd).1
        subst hch
        rw [add_model_eq] at h
        have hk2 : (dictSet st.session_models (c ++ "_" ++ p)
            (sessionEntryFor st.storage_path (c ++ "_" ++ p))).lookup k =
            some (sessionEntryFor st.storage_path k) := by
          rw [dictSet_lookup]
          by_cases hkk : k = c ++ "_" ++ p
          · subst hkk; simp
          · simp [hkk, hk]
        exact ih _ st' h k hk2

theorem processModels_covers (m : MinioState) (names : List String) :
    ∀ st st', processModels m names st = .ok st' →
      ∀ name ∈ names, st'.session_models.lookup name =
        some (sessionEntryFor st.storage_path name) := by
  induction names with
  | nil => intro st st' h name hn; exact absurd hn (by simp)
  | cons n rest ih =>
    intro st st' h name hn
    unfold processModels at h
    split at h
    next e hu => exact Except.noConfusion h
    next c p hu =>
      split at h
      next e hd => exact Except.noConfusion h
      next st1 hd =>
        have hch := (download_files_ok m c p st st1 hd).1
        subst hch
        rw [add_model_eq] at h
        have hkey := (unpack2_ok_key n c p hu).1
        rcases List.mem_cons.mp hn with rfl | hn2
        · refine processModels_persist m rest _ st' h name ?_
          show (dictSet st.session_models (c ++ "_" ++ p)
              (sessionEntryFor st.storage_path (c ++ "_" ++ p))).lookup name =
            some (sessionEntryFor st.storage_path name)
          rw [dictSet_lookup, hkey]
          simp
        · exact ih _ st' h name hn2

theorem processModels_keys_from (m : MinioState) (names : List String) :
    ∀ st st', processModels m names st = .ok st' →
      ∀ k e, st'.session_models.lookup k = some e →
        st.session_models.lookup k = some e ∨ k ∈ names := by
  induction names with
  | nil =>
    intro st st' h k e hl
    simp only [processModels, Except.ok.injEq] at h
    rw [h]
    exact Or.inl hl
  | cons n rest ih =>
    intro st st' h k e hl
    unfold processModels at h
    split at h
    next err hu => exact Except.noConfusion h
    next c p hu =>
      split at h
      next err hd => exact Except.noConfusion h
      next st1 hd =>
        have hch := (download_files_ok m c p st st1 hd).1
        subst hch
        rw [add_model_eq] at h
        have hkey := (unpack2_ok_key n c p hu).1
        rcases ih _ st' h k e hl with h2 | h2
        · have h2' : (dictSet st.session_models (c ++ "_" ++ p)
              (sessionEntryFor st.storage_path (c ++ "_" ++ p))).lookup k =
              some e := h2
          rw [dictSet_lookup] at h2'
          by_cases hkk : k = c ++ "_" ++ p
          · right
            rw [hkey] at hkk
            exact hkk ▸ List.mem_cons_self _ _
          · left
            simpa [hkk] using h2'
        · exact Or.inr (List.mem_cons_of_mem _ h2)

theorem processModels_count (m : MinioState) (names : List String) :
    ∀ st st', processModels m names st = .ok st' →
      ∀ name ∈ names, name.data.count '_' = 1 := by
  induction names with
  | nil => intro st st' h name hn; exact absurd hn (by simp)
  | cons n rest ih =>
    intro st st' h name hn
    unfold processModels at h
    split at h
    next err hu => exact Except.noConfusion h
    next c p hu =>
      split at h
      next err hd => exact Except.noConfusion h
      next st1 hd =>
        rcases List.mem_cons.mp hn with rfl | hn2
        · exact (unpack2_ok_key name c p hu).2
        · exact ih _ st' h name hn2

theorem processModels_fetched_mono (m : MinioState) (names : List String) :
    ∀ st st', processModels m names st = .ok st' →
      ∀ q ∈ st.fetched, q ∈ st'.fetched := by
  induction names with
  | nil =>
    intro st st' h q hq
    simp only [processModels, Except.ok.injEq] at h
    rw [← h]
    exact hq
  | cons n rest ih =>
    intro st st' h q hq
    unfold processModels at h
    split at h
    next err hu => exact Except.noConfusion h
    next c p hu =>
      split at h
      next err hd => exact Except.noConfusion h
      next st1 hd =>
        have hch := (download_files_ok m c p st st1 hd).1
        subst hch
        rw [add_model_eq] at h
        exact ih _ st' h q (List.mem_append_left _ hq)

theorem processModels_fetched_origin (m : MinioState) (names : List String) :
    ∀ st st', processModels m names st = .ok st' →
      ∀ q ∈ st'.fetched, q ∈ st.fetched ∨ ∃ t, q.data = st.date.data ++ t := by
  induction names with
  | nil =>
    intro st st' h q hq
    simp only [processModels, Except.ok.injEq] at h
    rw [← h] at hq
    exact Or.inl hq
  | cons n rest ih =>
    intro st st' h q hq
    unfold processModels at h
    split at h
    next err hu => exact Except.noConfusion h
    next c p hu =>
      split at h
      next err hd => exact Except.noConfusion h
      next st1 hd =>
        have hch := (download_files_ok m c p st st1 hd).1
        subst hch
        rw [add_model_eq] at h
        rcases ih _ st' h q hq with h2 | h2
        · have h2' : q ∈ st.fetched ++
              [st.date ++ "/" ++ c ++ "_" ++ p ++ "/model.onnx",
               st.date ++ "/" ++ c ++ "_" ++ p ++ "/scaler.pkl"] := h2
          rcases List.mem_append.mp h2' with h3 | h3
          · exact Or.inl h3
          · refine Or.inr ?_
            rcases List.mem_cons.mp h3 with rfl | h4
            · refine ⟨("/" ++ (c ++ ("_" ++ (p ++ "/model.onnx")))).data, ?_⟩
              rw [← string_data_append]
              simp [string_append_assoc]
            · rcases List.mem_cons.mp h4 with rfl | h5
              · refine ⟨("/" ++ (c ++ ("_" ++ (p ++ "/scaler.pkl")))).data, ?_⟩
                rw [← string_data_append]
                simp [string_append_assoc]
              · exact absurd h5 (by simp)
        · exact Or.inr h2

theorem processModels_downloads (m : MinioState) (names : List String) :
    ∀ st st', processModels m names st = .ok st' →
      ∀ name ∈ names,
        (st.date ++ "/" ++ name ++ "/model.onnx") ∈ st'.fetched ∧
        (st.date ++ "/" ++ name ++ "/scaler.pkl") ∈ st'.fetched := by
  induction names with
  | nil => intro st st' h name hn; exact absurd hn (by simp)
  | cons n rest ih =>
    intro st st' h name hn
    unfold processModels at h
    split at h
    next err hu => exact Except.noConfusion h
    next c p hu =>
      split at h
      next err hd => exact Except.noConfusion h
      next st1 hd =>
        have hch := (download_files_ok m c p st st1 hd).1
        subst hch
        rw [add_model_eq] at h
        have hkey := (unpack2_ok_key n c p hu).1
        rcases List.mem_cons.mp hn with rfl | hn2
        · constructor
          · refine processModels_fetched_mono m rest _ st' h _ ?_
            show (st.date ++ "/" ++ name ++ "/model.onnx") ∈ st.fetched ++
              [st.date ++ "/" ++ c ++ "_" ++ p ++ "/model.onnx",
               st.date ++ "/" ++ c ++ "_" ++ p ++ "/scaler.pkl"]
            rw [← hkey]
            simp [string_append_assoc]
          · refine processModels_fetched_mono m rest _ st' h _ ?_
            show (st.date ++ "/" ++ name ++ "/scaler.pkl") ∈ st.fetched ++
              [st.date ++ "/" ++ c ++ "_" ++ p ++ "/model.onnx",
               st.date ++ "/" ++ c ++ "_" ++ p ++ "/scaler.pkl"]
            rw [← hkey]
            simp [string_append_assoc]
        · exact ih _ st' h name hn2

theorem secondComponents_mem (objs : List String) :
    ∀ ns, secondComponents objs = .ok ns →
      ∀ n ∈ ns, ∃ o ∈ objs, (pySplit '/' o.data).get? 1 = some n.data := by
  induction objs with
  | nil =>
    intro ns h n hn
    simp only [secondComponents, Except.ok.injEq] at h
    rw [← h] at hn
    exact absurd hn (by simp)
  | cons o os ih =>
    intro ns h n hn
    unfold secondComponents at h
    split at h
    next hg => exact Except.noConfusion h
    next g hg =>
      split at h
      next e hs => exact Except.noConfusion h
      next ns2 hs =>
        have h2 := Except.ok.inj h
        rw [← h2] at hn
        rcases List.mem_cons.mp hn with rfl | hn2
        · exact ⟨o, List.mem_cons_self _ _, hg⟩
        · obtain ⟨o2, ho2, hg2⟩ := ih ns2 hs n hn2
          exact ⟨o2, List.mem_cons_of_mem _ ho2, hg2⟩

/-- Every object returned by a prefixed listing carries the prefix. -/
theorem list_objects_prefixed (m : MinioState) (bucket pre : String) :
    ∀ o ∈ list_objects m bucket pre, pre.data.isPrefixOf o.data = true := by
  intro o ho
  unfold list_objects at ho
  rcases List.mem_map.mp ho with ⟨pr, hpr, rfl⟩
  have hb := (List.mem_filter.mp hpr).2
  simp only [Bool.and_eq_true] at hb
  exact hb.2

/-- Names produced by `_get_list_of_available_models` are second components
of objects listed under the date prefix. -/
theorem get_list_names (m : MinioState) (bucket date : String) (names : List String)
    (h : _get_list_of_available_models m bucket date = .ok names) :
    ∀ n ∈ names, ∃ o ∈ list_objects m bucket date,
      (pySplit '/' o.data).get? 1 = some n.data := by
  unfold _get_list_of_available_models at h
  split at h
  next e hs => exact Except.noConfusion h
  next ns hs =>
    have h2 := Except.ok.inj h
    intro n hn
    rw [← h2] at hn
    exact secondComponents_mem _ ns hs n (List.mem_dedup.mp hn)

theorem update_model_files_ok (m : MinioState) (self st' : ModelLoader)
    (h : update_model_files m self = .ok st') :
    ∃ names, _get_list_of_available_models m self.bucket self.date = .ok names ∧
      processModels m names self = .ok st' := by
  unfold update_model_files at h
  split at h
  next e hs => exact Except.noConfusion h
  next names hs => exact ⟨names, hs, h⟩

theorem update_model_files_fields (m : MinioState) (self st' : ModelLoader)
    (h : update_model_files m self = .ok st') :
    st'.bucket = self.bucket ∧ st'.date = self.date ∧
    st'.storage_path = self.storage_path := by
  obtain ⟨names, hlist, hproc⟩ := update_model_files_ok m self st' h
  exact processModels_fields m names self st' hproc

/-- C3: `get_predictions` returns the cached model's prediction on the sample
when the model name is a key of `session_models`, and raises
`ValueError("Model not found in session.")` when it is not; in the error
case the loader state, in particular `session_models`, is unchanged. -/
theorem get_predictions_spec (self : ModelLoader) (model_name : String)
    (sample : List Int) :
    (∀ entry, self.session_models.lookup model_name = some entry →
      get_predictions self model_name sample =
        (.ok (entry.model.predict sample), self)) ∧
    (self.session_models.lookup model_name = none →
      get_predictions self model_name sample =
        (.error "Model not found in session.", self)) := by
  constructor
  · intro entry hl
    have hc : _check_model_exists_in_session self model_name = true := by
      unfold _check_model_exists_in_session
      rw [any_key_eq_lookup_isSome, hl]
      rfl
    unfold get_predictions
    rw [if_pos hc, hl]
  · intro hl
    have hc : _check_model_exists_in_session self model_name = false := by
      unfold _check_model_exists_in_session
      rw [any_key_eq_lookup_isSome, hl]
      rfl
    have hn : ¬ _check_model_exists_in_session self model_name = true := by
      simp [hc]
    unfold get_predictions
    rw [if_neg hn]

/-- C4: construction establishes the model cache: `__init__` creates the
configured bucket when it does not exist, and when it returns, every model
name listed in the bucket under the current date prefix has a session entry
whose `OnnxModel` wraps the two local files of that name, both downloaded
from the date-prefixed object paths. -/
theorem init_establishes_model_cache (env_bucket today : String)
    (m m2 : MinioState) (st : ModelLoader)
    (h : ModelLoader.init env_bucket today m = .ok (m2, st)) :
    bucket_exists m2 env_bucket = true ∧
    (bucket_exists m env_bucket = true → m2 = m) ∧
    (bucket_exists m env_bucket = false → m2 = make_bucket m env_bucket) ∧
    (∀ names, _get_list_of_available_models m2 env_bucket today = .ok names →
      ∀ name ∈ names,
        st.session_models.lookup name = some (sessionEntryFor "./models" name) ∧
        (today ++ "/" ++ name ++ "/model.onnx") ∈ st.fetched ∧
        (today ++ "/" ++ name ++ "/scaler.pkl") ∈ st.fetched) := by
  simp only [ModelLoader.init] at h
  split at h
  next e hupd => exact Except.noConfusion h
  next st2 hupd =>
    have h2 := Except.ok.inj h
    injection h2 with hm hst
    subst hm
    subst hst
    by_cases hbe : bucket_exists m env_bucket = true
    · rw [if_pos hbe] at hupd ⊢
      obtain ⟨names0, hlist0, hproc⟩ := update_model_files_ok _ _ _ hupd
      have hlist0' : _get_list_of_available_models m env_bucket today = .ok names0 :=
        hlist0
      refine ⟨hbe, fun _ => rfl, fun hf => absurd hbe (by simp [hf]), ?_⟩
      intro names hlist name hname
      rw [hlist0'] at hlist
      have hn0 : names0 = names := Except.ok.inj hlist
      subst hn0
      refine ⟨processModels_covers _ _ _ _ hproc name hname, ?_, ?_⟩
      · exact (processModels_downloads _ _ _ _ hproc name hname).1
      · exact (processModels_downloads _ _ _ _ hproc name hname).2
    · rw [if_neg hbe] at hupd ⊢
      obtain ⟨names0, hlist0, hproc⟩ := update_model_files_ok _ _ _ hupd
      have hlist0' : _get_list_of_available_models (make_bucket m env_bucket)
          env_bucket today = .ok names0 := hlist0
      refine ⟨by simp [bucket_exists, make_bucket], fun ht => absurd ht hbe,
        fun _ => rfl, ?_⟩
      intro names hlist name hname
      rw [hlist0'] at hlist
      have hn0 : names0 = names := Except.ok.inj hlist
      subst hn0
      refine ⟨processModels_covers _ _ _ _ hproc name hname, ?_, ?_⟩
      · exact (processModels_downloads _ _ _ _ hproc name hname).1
      · exact (processModels_downloads _ _ _ _ hproc name hname).2

/-- C8: `update_model_files` succeeds only when every available model name
has exactly one underscore; the destructuring assignment raises `ValueError`
for a name with zero or several underscores, and for a name with exactly one
it yields the text before and the text after it. -/
theorem update_model_files_underscore :
    (∀ (m : MinioState) (self st' : ModelLoader) (names : List String),
        _get_list_of_available_models m self.bucket self.date = .ok names →
        update_model_files m self = .ok st' →
        ∀ name ∈ names, name.data.count '_' = 1) ∧
    (∀ name : String, name.data.count '_' ≠ 1 →
        unpack2 name = .error "ValueError") ∧
    (∀ b a : List Char, '_' ∉ b → '_' ∉ a →
        unpack2 (String.mk (b ++ '_' :: a)) = .ok (String.mk b, String.mk a)) := by
  refine ⟨?_, unpack2_error_of_count_ne_one, unpack2_ok_pair⟩
  intro m self st' names hlist hupd name hname
  obtain ⟨names0, hlist0, hproc⟩ := update_model_files_ok m self st' hupd
  rw [hlist0] at hlist
  have hn0 : names0 = names := Except.ok.inj hlist
  subst hn0
  exact processModels_count m names0 self st' hproc name hname

/-- C9: the loader is pinned to a single date: construction sets `date` to
the formatted construction-time date, only `update_date` changes it, every
listed object name carries the date prefix, every downloaded object path is
date-prefixed, and every session entry added by `update_model_files` comes
from an object listed under the date prefix. -/
theorem loader_date_pinned :
    (∀ env_bucket today m m2 st,
        ModelLoader.init env_bucket today m = .ok (m2, st) → st.date = today) ∧
    (∀ today self, (update_date today self).date = today) ∧
    (∀ m self st', update_model_files m self = .ok st' → st'.date = self.date) ∧
    (∀ self name sample, (get_predictions self name sample).2 = self) ∧
    (∀ m bucket date, ∀ o ∈ list_objects m bucket date,
        date.data.isPrefixOf o.data = true) ∧
    (∀ m self st', update_model_files m self = .ok st' →
        (∀ q ∈ st'.fetched, q ∈ self.fetched ∨
            ∃ t, q.data = self.date.data ++ t) ∧
        (∀ k e, st'.session_models.lookup k = some e →
            self.session_models.lookup k = some e ∨
            ∃ o ∈ list_objects m self.bucket self.date,
              (pySplit '/' o.data).get? 1 = some k.data)) := by
  refine ⟨?_, fun _ _ => rfl, ?_, ?_, list_objects_prefixed, ?_⟩
  · intro env_bucket today m m2 st h
    simp only [ModelLoader.init] at h
    split at h
    next e hupd => exact Except.noConfusion h
    next st2 hupd =>
      have h2 := Except.ok.inj h
      injection h2 with hm hst
      subst hst
      have hd := (update_model_files_fields _ _ _ hupd).2.1
      exact hd
  · intro m self st' h
    exact (update_model_files_fields m self st' h).2.1
  · intro self name sample
    unfold get_predictions
    split
    · split <;> rfl
    · rfl
  · intro m self st' h
    obtain ⟨names, hlist, hproc⟩ := update_model_files_ok m self st' h
    constructor
    · exact processModels_fetched_origin m names self st' hproc
    · intro k e hl
      rcases processModels_keys_from m names self st' hproc k e hl with h2 | h2
      · exact Or.inl h2
      · exact Or.inr (get_list_names m self.bucket self.date names hlist k h2)

/-- Witness for C3 at a concrete loader: the cached model answers with its
prediction, a missing name raises, and the state comes back unchanged. -/
theorem get_predictions_spec_witness :
    get_predictions demoLoaded "btc_usdt" [1, 2] =
      (.ok (OnnxModel.predict
        ⟨"./models/btc_usdt/model.onnx", "./models/btc_usdt/scaler.pkl"⟩ [1, 2]),
       demoLoaded) ∧
    get_predictions demoLoaded "eth_usdt" [1, 2] =
      (.error "Model not found in session.", demoLoaded) :=
  ⟨(get_predictions_spec demoLoaded "btc_usdt" [1, 2]).1
      ⟨⟨"./models/btc_usdt/model.onnx", "./models/btc_usdt/scaler.pkl"⟩⟩ rfl,
   (get_predictions_spec demoLoaded "eth_usdt" [1, 2]).2 rfl⟩

/-- Witness for C4 at a concrete construction run: the bucket exists, the one
listed model name has a session entry, and its files were downloaded. -/
theorem init_establishes_model_cache_witness :
    bucket_exists demoMinio "models" = true ∧
    demoLoaded.session_models.lookup "btc_usdt" =
      some (sessionEntryFor "./models" "btc_usdt") ∧
    ("2021-12-01/btc_usdt/model.onnx" : String) ∈ demoLoaded.fetched := by
  have hinit : ModelLoader.init "models" "2021-12-01" demoMinio =
      .ok (demoMinio, demoLoaded) := rfl
  have hlist : _get_list_of_available_models demoMinio "models" "2021-12-01" =
      .ok ["btc_usdt"] := rfl
  have hmain := init_establishes_model_cache "models" "2021-12-01" demoMinio
    demoMinio demoLoaded hinit
  refine ⟨hmain.1, ?_, ?_⟩
  · exact (hmain.2.2.2 ["btc_usdt"] hlist "btc_usdt" (by simp)).1
  · exact (hmain.2.2.2 ["btc_usdt"] hlist "btc_usdt" (by simp)).2.1

/-- Witness for C8: the demonstration run lists only one-underscore names,
a name without an underscore raises, and a one-underscore name destructures
into the parts around it. -/
theorem update_model_files_underscore_witness :
    ("btc_usdt" : String).data.count '_' = 1 ∧
    unpack2 "btcusdt" = .error "ValueError" ∧
    unpack2 (String.mk (['b', 't', 'c'] ++ '_' :: ['u', 's', 'd', 't'])) =
      .ok (String.mk ['b', 't', 'c'], String.mk ['u', 's', 'd', 't']) := by
  have hm := update_model_files_underscore
  have hlist : _get_list_of_available_models demoMinio demoLoader0.bucket
      demoLoader0.date = .ok ["btc_usdt"] := rfl
  have hupd : update_model_files demoMinio demoLoader0 = .ok demoLoaded := rfl
  exact ⟨hm.1 demoMinio demoLoader0 demoLoaded ["btc_usdt"] hlist hupd "btc_usdt"
      (by simp),
    hm.2.1 "btcusdt" (by decide),
    hm.2.2 ['b', 't', 'c'] ['u', 's', 'd', 't'] (by decide) (by decide)⟩

/-- Witness for C9 at the demonstration run: the constructed loader carries
the construction date, `get_predictions` returns the state unchanged, and a
listed object is date-prefixed. -/
theorem loader_date_pinned_witness :
    demoLoaded.date = "2021-12-01" ∧
    (get_predictions demoLoaded "btc_usdt" [0]).2 = demoLoaded ∧
    ("2021-12-01" : String).data.isPrefixOf
      ("2021-12-01/btc_usdt/model.onnx" : String).data = true := by
  have hm := loader_date_pinned
  exact ⟨hm.1 "models" "2021-12-01" demoMinio demoMinio demoLoaded rfl,
    hm.2.2.2.1 demoLoaded "btc_usdt" [0],
    hm.2.2.2.2.1 demoMinio "models" "2021-12-01" "2021-12-01/btc_usdt/model.onnx"
      (by decide)⟩

end MakeMeRich
